import Mathlib

/-!
Verification of the computational core of the "Shifting Maze" game
(maze generation, Bezier curve evaluation, kinetic obstacles, enemy AI).

The C++ sources (src/maze.h, src/bezier.h, src/enemy.h) are shallowly
embedded below.  Conventions of the embedding:

* C++ float arithmetic is embedded as exact rational arithmetic over ℚ
  (all constants of the source are dyadic or decimal literals).
* The fourth (homogeneous) component w of the source's Vec4 is omitted:
  none of the embedded routines reads or writes it (they all touch only
  x, y, z), and every Vec4 in the game is built with the ctor default w=1.
* The process-wide C rand() stream obtained after srand(time(NULL)) is
  modelled by an explicit stream r : ℕ → ℕ together with a cursor index
  that is threaded through every function that calls rand().
* The C++ int division that appears is either exact or on nonnegative
  operands in every reachable call, so ℤ euclidean division coincides
  with the C++ truncating division at all call sites; casts from float
  to int (worldToGrid) are embedded by explicit truncation toward zero.
* Render-only members (Color, slices, stacks, rotationAxis drawing use,
  transform matrices) are not part of any embedded computation and are
  omitted from the structures.
-/

/-! ## Cell type codes (enum CellType, maze.h lines 25-34) -/

def CELL_EMPTY : ℕ := 0
def CELL_WALL : ℕ := 1
def CELL_DYNAMIC_ROTATE : ℕ := 2
def CELL_DYNAMIC_SLIDE : ℕ := 3
def CELL_DYNAMIC_SCALE : ℕ := 4
def CELL_START : ℕ := 5
def CELL_EXIT : ℕ := 6
def CELL_TRAP : ℕ := 7

/-- The rand() stream: value of the n-th call to rand() after seeding. -/
abbrev Rng : Type := ℕ → ℕ

/-! ## Vec4 (matrix.h), with the unused homogeneous component omitted -/

@[ext]
structure Vec4 where
  x : ℚ
  y : ℚ
  z : ℚ
deriving DecidableEq, Repr

/-! ## bezier.h : binomial coefficient, Bernstein polynomial, De Casteljau -/

/-- bezier.h lines 22-31: multiplicative loop for C(n,k); each step's
int division is exact (classical recurrence), so euclidean `/` on ℤ
agrees with the C++ truncating division here. -/
def binomial (n k : ℕ) : ℤ :=
  if n < k then 0
  else if k = 0 ∨ k = n then 1
  else (List.range k).foldl (fun res (i : ℕ) => res * ((n : ℤ) - (i : ℤ)) / ((i : ℤ) + 1)) 1

/-- bezier.h lines 37-39: B_k^n(t) = C(n,k) * (1-t)^(n-k) * t^k.
Every call site has k ≤ n, where the ℕ subtraction n-k agrees with C++. -/
def bernsteinPoly (n k : ℕ) (t : ℚ) : ℚ :=
  (binomial n k : ℚ) * (1 - t) ^ (n - k) * t ^ k

/-- bezier.h lines 92-104 (BezierCurve::computeBernstein): accumulate
B_i^n(t) * P_i for i = 0..n over a zero-initialised Vec4.  For an empty
control list the C++ loop body never runs (n = -1) and the zero vector
is returned; List.range pts.length yields exactly the executed indices. -/
def BezierCurve.computeBernstein (pts : List Vec4) (t : ℚ) : Vec4 :=
  (List.range pts.length).foldl
    (fun acc i =>
      ⟨acc.x + bernsteinPoly (pts.length - 1) i t * (pts.getD i ⟨0, 0, 0⟩).x,
       acc.y + bernsteinPoly (pts.length - 1) i t * (pts.getD i ⟨0, 0, 0⟩).y,
       acc.z + bernsteinPoly (pts.length - 1) i t * (pts.getD i ⟨0, 0, 0⟩).z⟩)
    ⟨0, 0, 0⟩

/-- bezier.h line 114-116: BezierCurve::compute delegates to Bernstein. -/
def BezierCurve.compute (pts : List Vec4) (t : ℚ) : Vec4 :=
  BezierCurve.computeBernstein pts t

/-- One linear interpolation of the De Casteljau reduction
(bezier.h lines 56-58, componentwise on x, y, z). -/
def lerp (t : ℚ) (p q : Vec4) : Vec4 :=
  ⟨(1 - t) * p.x + t * q.x, (1 - t) * p.y + t * q.y, (1 - t) * p.z + t * q.z⟩

/-- One pass r of the in-place loop of DeCasteljau::compute: the C++
updates points[i] from the previous pass's points[i] and points[i+1]
for i < n - r, which is exactly a pairwise lerp of adjacent entries. -/
def decasStep (t : ℚ) : List Vec4 → List Vec4
  | p :: q :: rest => lerp t p q :: decasStep t (q :: rest)
  | _ => []

/-- The n-1 passes of the outer loop of DeCasteljau::compute. -/
def decasIter (t : ℚ) : ℕ → List Vec4 → List Vec4
  | 0, l => l
  | n + 1, l => decasIter t n (decasStep t l)

/-- bezier.h lines 48-63 (DeCasteljau::compute): run size-1 reduction
passes and return points[0].  The C++ reads points[0] of an empty vector
for an empty input (undefined behaviour, unreachable in the game); the
embedding returns the zero vector in that never-exercised case. -/
def DeCasteljau.compute (pts : List Vec4) (t : ℚ) : Vec4 :=
  (decasIter t (pts.length - 1) pts).headD ⟨0, 0, 0⟩

/-! Proof-side rational mirrors of the two evaluators (one coordinate). -/

/-- Mathematical Bernstein basis polynomial, used to state sums. -/
def bern (n k : ℕ) (t : ℚ) : ℚ :=
  (Nat.choose n k : ℚ) * (1 - t) ^ (n - k) * t ^ k

/-- Bernstein-form value of a single coordinate list. -/
def bernSum (l : List ℚ) (t : ℚ) : ℚ :=
  ∑ i ∈ Finset.range l.length, bern (l.length - 1) i t * l.getD i 0

def lerpQ (t a b : ℚ) : ℚ := (1 - t) * a + t * b

def decasStepQ (t : ℚ) : List ℚ → List ℚ
  | a :: b :: rest => lerpQ t a b :: decasStepQ t (b :: rest)
  | _ => []

def decasIterQ (t : ℚ) : ℕ → List ℚ → List ℚ
  | 0, l => l
  | n + 1, l => decasIterQ t n (decasStepQ t l)

/-- De Casteljau value of a single coordinate list. -/
def deCasQ (t : ℚ) (l : List ℚ) : ℚ :=
  (decasIterQ t (l.length - 1) l).headD 0

/-! ## DynamicWall (maze.h lines 39-215) -/

structure DynamicWall where
  gridX : ℤ
  gridZ : ℤ
  position : Vec4
  originalPosition : Vec4
  type : ℕ
  rotationAngle : ℚ
  rotationSpeed : ℚ
  slidePath : List Vec4
  slideT : ℚ
  slideSpeed : ℚ
  slideDirection : ℤ
  scale : ℚ
  targetScale : ℚ
  scaleSpeed : ℚ
  isVisible : Bool
  stateTimer : ℚ
  isActive : Bool
deriving Repr

/-- The DynamicWall constructor (maze.h lines 67-88). -/
def DynamicWall.init : DynamicWall where
  gridX := 0
  gridZ := 0
  position := ⟨0, 0, 0⟩
  originalPosition := ⟨0, 0, 0⟩
  type := CELL_WALL
  rotationAngle := 0
  rotationSpeed := 45
  slidePath := []
  slideT := 0
  slideSpeed := 3 / 10
  slideDirection := 1
  scale := 1
  targetScale := 1
  scaleSpeed := 1
  isVisible := true
  stateTimer := 0
  isActive := true

/-- maze.h lines 91-108 (setupSlidePath): four-point control polygon
from start to end; 0.33f and 0.66f are embedded as exact decimals. -/
def DynamicWall.setupSlidePath (w : DynamicWall) (s e : Vec4) : DynamicWall :=
  let mid1 : Vec4 := ⟨s.x + (e.x - s.x) * (33 / 100), s.y, s.z + (e.z - s.z) * (33 / 100) + 1⟩
  let mid2 : Vec4 := ⟨s.x + (e.x - s.x) * (66 / 100), s.y, s.z + (e.z - s.z) * (66 / 100) - 1⟩
  { w with slidePath := [s, mid1, mid2, e], originalPosition := s }

/-- maze.h lines 130-133 (updateRotation). -/
def DynamicWall.updateRotation (w : DynamicWall) (dt : ℚ) : DynamicWall :=
  let a := w.rotationAngle + w.rotationSpeed * dt
  { w with rotationAngle := if 360 ≤ a then a - 360 else a }

/-- maze.h lines 136-149 (updateSlide): advance t, ping-pong clamp at the
ends, then place the wall on the Bezier path at the clamped parameter. -/
def DynamicWall.updateSlide (w : DynamicWall) (dt : ℚ) : DynamicWall :=
  let t1 := w.slideT + w.slideSpeed * (w.slideDirection : ℚ) * dt
  let td : ℚ × ℤ :=
    if 1 ≤ t1 then (1, -1)
    else if t1 ≤ 0 then (0, 1)
    else (t1, w.slideDirection)
  { w with slideT := td.1, slideDirection := td.2,
           position := BezierCurve.compute w.slidePath td.1 }

/-- maze.h lines 152-172 (updateScale): 5-second target toggle, move the
scale toward the target clamped at it, then derive the two flags. -/
def DynamicWall.updateScale (w : DynamicWall) (dt : ℚ) : DynamicWall :=
  let st := w.stateTimer + dt
  let sttgt : ℚ × ℚ :=
    if 5 < st then (0, if 1 / 2 < w.targetScale then 0 else 1)
    else (st, w.targetScale)
  let tgt := sttgt.2
  let sc :=
    if w.scale < tgt then
      let s1 := w.scale + w.scaleSpeed * dt
      if tgt < s1 then tgt else s1
    else if tgt < w.scale then
      let s1 := w.scale - w.scaleSpeed * dt
      if s1 < tgt then tgt else s1
    else w.scale
  { w with stateTimer := sttgt.1, targetScale := tgt, scale := sc,
           isVisible := decide ((1 / 100 : ℚ) < sc),
           isActive := decide ((1 / 2 : ℚ) < sc) }

/-- maze.h lines 113-127 (DynamicWall::update): dispatch on the type tag. -/
def DynamicWall.update (w : DynamicWall) (dt : ℚ) : DynamicWall :=
  if w.type = CELL_DYNAMIC_ROTATE then w.updateRotation dt
  else if w.type = CELL_DYNAMIC_SLIDE then w.updateSlide dt
  else if w.type = CELL_DYNAMIC_SCALE then w.updateScale dt
  else w

/-! ## Enemy (enemy.h lines 42-379) -/

def ENEMY_PATROL : ℕ := 0
def ENEMY_CIRCULAR : ℕ := 1
def ENEMY_CHASE : ℕ := 2
def ENEMY_GUARD : ℕ := 3

structure Enemy where
  position : Vec4
  startPosition : Vec4
  targetPosition : Vec4
  radius : ℚ
  path : List Vec4
  pathT : ℚ
  speed : ℚ
  baseSpeed : ℚ
  direction : ℤ
  isAlive : Bool
  type : ℕ
  detectionRange : ℚ
  chaseRange : ℚ
  isChasing : Bool
  guardPosition : Vec4
  guardRadius : ℚ
  pulsePhase : ℚ
  rotationY : ℚ
deriving Repr

/-- The Enemy constructor (enemy.h lines 74-98). -/
def Enemy.init : Enemy where
  position := ⟨0, 1 / 2, 0⟩
  startPosition := ⟨0, 1 / 2, 0⟩
  targetPosition := ⟨0, 1 / 2, 0⟩
  radius := 2 / 5
  path := []
  pathT := 0
  speed := 15 / 100
  baseSpeed := 15 / 100
  direction := 1
  isAlive := true
  type := ENEMY_PATROL
  detectionRange := 8
  chaseRange := 5
  isChasing := false
  guardPosition := ⟨0, 0, 0⟩
  guardRadius := 3
  pulsePhase := 0
  rotationY := 0

/-- enemy.h lines 218-233 (updatePatrol): advance t along the Bezier
path, bounce at the ends, evaluate the position by the Bernstein form. -/
def Enemy.updatePatrol (e : Enemy) (dt : ℚ) : Enemy :=
  let t1 := e.pathT + e.speed * (e.direction : ℚ) * dt
  let td : ℚ × ℤ :=
    if 1 ≤ t1 then (1, -1)
    else if t1 ≤ 0 then (0, 1)
    else (t1, e.direction)
  { e with pathT := td.1, direction := td.2,
           position := BezierCurve.computeBernstein e.path td.1 }

/-- Squared 3D distance between two points.  The source's distanceTo
(enemy.h lines 344-349) returns sqrt of this. -/
def distSq3 (a b : Vec4) : ℚ :=
  (a.x - b.x) ^ 2 + (a.y - b.y) ^ 2 + (a.z - b.z) ^ 2

/-- Squared planar (vertical-ignoring) distance, the quantity claimed by
the specification for chase detection. -/
def planarDistSq (a b : Vec4) : ℚ :=
  (a.x - b.x) ^ 2 + (a.z - b.z) ^ 2

/-- enemy.h lines 236-283 (updateChase).  The source compares
dist = sqrtf(distSq3) against detectionRange; since sqrtf is the
nonnegative square root, dist < R holds exactly when 0 < R and
distSq3 < R^2, which keeps the branch in ℚ for every input.  Likewise
the normalization guards len > 0.01 and len > 0.5 over len = sqrtf(lenSq)
become 1/10000 < lenSq and 1/4 < lenSq.  The parameter s stands for the
C sqrtf routine itself, used by the source only as the normalization
divisor of the steering step; no embedded flag depends on it. -/
def Enemy.updateChase (s : ℚ → ℚ) (e : Enemy) (player : Vec4) (dt : ℚ) : Enemy :=
  let e1 :=
    if 0 < e.detectionRange ∧ distSq3 e.position player < e.detectionRange ^ 2 then
      { e with isChasing := true, targetPosition := player }
    else
      { e with isChasing := false }
  if e1.isChasing then
    let dx := player.x - e1.position.x
    let dz := player.z - e1.position.z
    let lenSq := dx ^ 2 + dz ^ 2
    if (1 / 10000 : ℚ) < lenSq then
      let len := s lenSq
      { e1 with position := ⟨e1.position.x + dx / len * e1.speed * dt * 5,
                             e1.position.y,
                             e1.position.z + dz / len * e1.speed * dt * 5⟩ }
    else e1
  else
    let dx := e1.startPosition.x - e1.position.x
    let dz := e1.startPosition.z - e1.position.z
    let lenSq := dx ^ 2 + dz ^ 2
    if (1 / 4 : ℚ) < lenSq then
      let len := s lenSq
      { e1 with position := ⟨e1.position.x + dx / len * e1.speed * dt * 3,
                             e1.position.y,
                             e1.position.z + dz / len * e1.speed * dt * 3⟩ }
    else e1

/-! ## Maze (maze.h lines 220-520) -/

/-- The 10x10 cell array, embedded as a total function so that the
bounds-guarded accesses of the source can be stated about arbitrary
integer coordinates.  Only cells with both coordinates in [0, 10) exist
in the C++ array. -/
abbrev Grid : Type := ℤ → ℤ → ℕ

/-- Assignment grid[x][z] = v. -/
def setCell (g : Grid) (x z : ℤ) (v : ℕ) : Grid :=
  fun a b => if a = x ∧ b = z then v else g a b

/-- Maze::SIZE = 10. -/
def mazeSize : ℤ := 10

/-- Constructor values startX = startZ = 1, exitX = exitZ = SIZE - 2 = 8
(maze.h lines 240-241); no code path reassigns them. -/
def startX : ℤ := 1
def startZ : ℤ := 1
def exitX : ℤ := 8
def exitZ : ℤ := 8

structure Maze where
  grid : Grid
  dynamicWalls : List DynamicWall
  cellSize : ℚ
  offsetX : ℚ
  offsetZ : ℚ
  shiftTimer : ℚ
  shiftInterval : ℚ

/-- The Maze constructor (maze.h lines 235-242).  The C++ leaves the
grid array uninitialised, so the initial cell contents are a parameter. -/
def Maze.init (g : Grid) : Maze where
  grid := g
  dynamicWalls := []
  cellSize := 2
  offsetX := -10
  offsetZ := -10
  shiftTimer := 0
  shiftInterval := 30

/-- maze.h lines 378-384 (gridToWorld): cell center in world space. -/
def Maze.gridToWorld (m : Maze) (x z : ℤ) : Vec4 :=
  ⟨m.offsetX + x * m.cellSize + m.cellSize / 2, 0,
   m.offsetZ + z * m.cellSize + m.cellSize / 2⟩

/-- C-style float-to-int cast: truncation toward zero. -/
def truncToInt (q : ℚ) : ℤ :=
  if 0 ≤ q then ⌊q⌋ else -⌊-q⌋

/-- maze.h lines 387-390 (worldToGrid): int casts of the scaled offsets. -/
def Maze.worldToGrid (m : Maze) (pos : Vec4) : ℤ × ℤ :=
  (truncToInt ((pos.x - m.offsetX) / m.cellSize),
   truncToInt ((pos.z - m.offsetZ) / m.cellSize))

/-- maze.h lines 514-519 (getCell): out-of-bounds coordinates report a
wall. -/
def Maze.getCell (m : Maze) (x z : ℤ) : ℕ :=
  if 0 ≤ x ∧ x < mazeSize ∧ 0 ≤ z ∧ z < mazeSize then m.grid x z
  else CELL_WALL

/-- maze.h lines 464-504 (checkCollision): scan the 3x3 neighborhood of
the containing cell, consider only in-bounds solid-typed cells, test an
AABB overlap shrunk by 0.1, and let a matching dynamic wall's isActive
decide; a solid cell with no dynamic wall entry blocks.  List.any mirrors
the early return true of the C++ loop. -/
def Maze.checkCollision (m : Maze) (pos : Vec4) (radius : ℚ) : Bool :=
  let gxz := m.worldToGrid pos
  ([-1, 0, 1] : List ℤ).any fun dx =>
    ([-1, 0, 1] : List ℤ).any fun dz =>
      let x := gxz.1 + dx
      let z := gxz.2 + dz
      if 0 ≤ x ∧ x < mazeSize ∧ 0 ≤ z ∧ z < mazeSize then
        let cell := m.grid x z
        if cell = CELL_WALL ∨ cell = CELL_DYNAMIC_ROTATE ∨
           cell = CELL_DYNAMIC_SLIDE ∨ cell = CELL_DYNAMIC_SCALE then
          let wallPos := m.gridToWorld x z
          let halfCell := m.cellSize / 2 - 1 / 10
          if wallPos.x - halfCell < pos.x + radius ∧
             pos.x - radius < wallPos.x + halfCell ∧
             wallPos.z - halfCell < pos.z + radius ∧
             pos.z - radius < wallPos.z + halfCell then
            match m.dynamicWalls.find? (fun dw => decide (dw.gridX = x ∧ dw.gridZ = z)) with
            | some dw => dw.isActive
            | none => true
          else false
        else false
      else false

/-- The in-bounds cell contents row by row, the observable "bytes" of a
generated grid. -/
def Maze.gridList (m : Maze) : List (List ℕ) :=
  (List.range 10).map fun x => (List.range 10).map fun z => m.grid (x : ℤ) (z : ℤ)

/-! ## Maze generation (maze.h lines 247-375) -/

/-- maze.h lines 251-255: initialise every (in-bounds) cell to Wall. -/
def initWalls (g : Grid) : Grid :=
  fun a b =>
    if 0 ≤ a ∧ a < mazeSize ∧ 0 ≤ b ∧ b < mazeSize then CELL_WALL else g a b

/-- Swap of two list entries, as the std::swap pair in the shuffle. -/
def swapL (l : List (ℤ × ℤ)) (a b : ℕ) : List (ℤ × ℤ) :=
  let va := l.getD a (0, 0)
  let vb := l.getD b (0, 0)
  (l.set a vb).set b va

/-- maze.h lines 276-283: the direction table and its Fisher-Yates
shuffle (i = 3, 2, 1 with j = rand() % (i + 1)).  Returns the shuffled
table and the advanced rand() cursor. -/
def shuffleDirs (r : Rng) (i : ℕ) : List (ℤ × ℤ) × ℕ :=
  let d0 : List (ℤ × ℤ) := [(0, -2), (2, 0), (0, 2), (-2, 0)]
  let d1 := swapL d0 3 (r i % 4)
  let d2 := swapL d1 2 (r (i + 1) % 3)
  let d3 := swapL d2 1 (r (i + 2) % 2)
  (d3, i + 3)

/-- One iteration of the direction loop of generatePaths (maze.h lines
285-296): if the two-cell neighbor is in the interior and still Wall,
carve the intermediate cell and recurse there (rec is the recursive
call with one fuel unit consumed). -/
def tryDir (rec : Grid → ℕ → ℤ → ℤ → Grid × ℕ)
    (st : Grid × ℕ) (x z : ℤ) (d : ℤ × ℤ) : Grid × ℕ :=
  let nx := x + d.1
  let nz := z + d.2
  if 0 < nx ∧ nx < mazeSize - 1 ∧ 0 < nz ∧ nz < mazeSize - 1 ∧ st.1 nx nz = CELL_WALL then
    rec (setCell st.1 (x + d.1 / 2) (z + d.2 / 2) CELL_EMPTY) st.2 nx nz
  else st

/-- maze.h lines 272-297 (generatePaths): recursive backtracking carve.
The C++ recursion terminates because every recursive call targets a
Wall cell that is immediately carved; the fuel bounds the recursion
depth, which never exceeds the 16 carvable interior cells, so any fuel
of at least 17 computes the exact C++ result (generate uses 64). -/
def generatePaths (r : Rng) : ℕ → Grid → ℕ → ℤ → ℤ → Grid × ℕ
  | 0, g, i, _, _ => (g, i)
  | fuel + 1, g, i, x, z =>
    let g1 := setCell g x z CELL_EMPTY
    let di := shuffleDirs r i
    let st1 := tryDir (generatePaths r fuel) (g1, di.2) x z (di.1.getD 0 (0, 0))
    let st2 := tryDir (generatePaths r fuel) st1 x z (di.1.getD 1 (0, 0))
    let st3 := tryDir (generatePaths r fuel) st2 x z (di.1.getD 2 (0, 0))
    tryDir (generatePaths r fuel) st3 x z (di.1.getD 3 (0, 0))

/-- Carve a cell only if it is currently Wall (the guarded assignments
of ensurePathToExit, maze.h lines 308, 311, 316, 319). -/
def carveIfWall (g : Grid) (x z : ℤ) : Grid :=
  if g x z = CELL_WALL then setCell g x z CELL_EMPTY else g

/-- One-at-a-time iterations of the while loop of ensurePathToExit
(maze.h lines 305-321): move x one step toward exitX then z one step
toward exitZ, carving every Wall cell stepped onto.  Each iteration
decreases the distance to the exit by at least one, so running the loop
with the initial distance as fuel computes the exact C++ fixpoint. -/
def ensureLoop : ℕ → Grid → ℤ → ℤ → Grid
  | 0, g, _, _ => g
  | fuel + 1, g, x, z =>
    if x = exitX ∧ z = exitZ then g
    else
      let x1 := if x < exitX then x + 1 else if exitX < x then x - 1 else x
      let g1 := if x < exitX ∨ exitX < x then carveIfWall g x1 z else g
      let z1 := if z < exitZ then z + 1 else if exitZ < z then z - 1 else z
      let g2 := if z < exitZ ∨ exitZ < z then carveIfWall g1 x1 z1 else g1
      ensureLoop fuel g2 x1 z1

/-- maze.h lines 300-322 (ensurePathToExit). -/
def ensurePathToExit (g : Grid) (x z : ℤ) : Grid :=
  ensureLoop ((exitX - x).natAbs + (exitZ - z).natAbs) g x z

/-- The body of the inner placement loop of addDynamicWalls (maze.h
lines 331-373), with the attempt counter as fuel (50 attempts): draw a
random interior cell; if it is Wall, build the wall there with a random
behavior type (a sliding wall also draws its slide direction), mark the
grid cell with the type tag and stop; otherwise retry. -/
def placeWallLoop (r : Rng) : ℕ → Maze → ℕ → Maze × ℕ
  | 0, m, i => (m, i)
  | att + 1, m, i =>
    let x : ℤ := 1 + (r i % 8 : ℕ)
    let z : ℤ := 1 + (r (i + 1) % 8 : ℕ)
    let i2 := i + 2
    if m.grid x z = CELL_WALL then
      let pos : Vec4 := { m.gridToWorld x z with y := 1 }
      let w0 : DynamicWall :=
        { DynamicWall.init with gridX := x, gridZ := z,
                                position := pos, originalPosition := pos }
      let tc := r i2 % 3
      if tc = 0 then
        ({ m with grid := setCell m.grid x z CELL_DYNAMIC_ROTATE,
                  dynamicWalls := m.dynamicWalls ++
                    [{ w0 with type := CELL_DYNAMIC_ROTATE }] }, i2 + 1)
      else if tc = 1 then
        let sgn : ℚ := if r (i2 + 1) % 2 = 0 then 1 else -1
        let endP : Vec4 := { pos with x := pos.x + sgn * m.cellSize }
        let w1 := DynamicWall.setupSlidePath { w0 with type := CELL_DYNAMIC_SLIDE } pos endP
        ({ m with grid := setCell m.grid x z CELL_DYNAMIC_SLIDE,
                  dynamicWalls := m.dynamicWalls ++ [w1] }, i2 + 2)
      else
        ({ m with grid := setCell m.grid x z CELL_DYNAMIC_SCALE,
                  dynamicWalls := m.dynamicWalls ++
                    [{ w0 with type := CELL_DYNAMIC_SCALE }] }, i2 + 1)
    else placeWallLoop r att m i2

/-- maze.h lines 325-375 (addDynamicWalls): clear the wall list, then
run the placement loop numDynamic = 5 times. -/
def addDynamicWalls (r : Rng) (i : ℕ) (m : Maze) : Maze × ℕ :=
  (List.range 5).foldl (fun st _ => placeWallLoop r 50 st.1 st.2)
    ({ m with dynamicWalls := [] }, i)

/-- maze.h lines 247-269 (generate): srand(time(NULL)) makes the rand()
stream r a function of the wall-clock seed, not of any caller argument;
then carve from (1,1), mark Start and Exit, repair connectivity, and
place the dynamic walls. -/
def Maze.generate (r : Rng) (m : Maze) : Maze × ℕ :=
  let g0 := initWalls m.grid
  let gi := generatePaths r 64 g0 0 1 1
  let g2 := setCell gi.1 startX startZ CELL_START
  let g3 := setCell g2 exitX exitZ CELL_EXIT
  let g4 := ensurePathToExit g3 startX startZ
  addDynamicWalls r gi.2 { m with grid := g4 }

/-! ## Maze shifting and per-tick update (maze.h lines 407-459) -/

/-- Per-wall part of triggerShift (maze.h lines 424-440): reset the
animation phase and, with probability 1/3, resample the behavior tag. -/
def shiftResetWall (r : Rng) (st : List DynamicWall × ℕ) (w : DynamicWall) :
    List DynamicWall × ℕ :=
  let w1 := { w with stateTimer := 0, rotationAngle := 0, slideT := 0, slideDirection := 1 }
  let i := st.2
  if r i % 3 = 0 then
    let nt := r (i + 1) % 3
    let w2 := { w1 with type :=
      if nt = 0 then CELL_DYNAMIC_ROTATE
      else if nt = 1 then CELL_DYNAMIC_SLIDE
      else CELL_DYNAMIC_SCALE }
    (st.1 ++ [w2], i + 2)
  else (st.1 ++ [w1], i + 1)

/-- maze.h lines 422-459 (triggerShift): reset/resample every wall, then
with probability 1/2 spawn a fresh scale wall (scale 0, target 1, all
other fields at constructor defaults, isVisible in particular true) on a
random Empty non-Start non-Exit cell. -/
def Maze.triggerShift (r : Rng) (i : ℕ) (m : Maze) : Maze × ℕ :=
  let wi := m.dynamicWalls.foldl (shiftResetWall r) ([], i)
  let x : ℤ := 1 + (r wi.2 % 8 : ℕ)
  let z : ℤ := 1 + (r (wi.2 + 1) % 8 : ℕ)
  let i2 := wi.2 + 2
  if m.grid x z = CELL_EMPTY ∧ ¬(x = startX ∧ z = startZ) ∧ ¬(x = exitX ∧ z = exitZ) then
    if r i2 % 2 = 0 then
      let nw : DynamicWall :=
        { DynamicWall.init with gridX := x, gridZ := z,
                                position := { m.gridToWorld x z with y := 1 },
                                type := CELL_DYNAMIC_SCALE,
                                scale := 0, targetScale := 1 }
      ({ m with dynamicWalls := wi.1 ++ [nw] }, i2 + 1)
    else ({ m with dynamicWalls := wi.1 }, i2 + 1)
  else ({ m with dynamicWalls := wi.1 }, i2)

/-- maze.h lines 407-419 (update): advance every dynamic wall, then
accumulate the shift timer and fire triggerShift when it reaches the
interval, resetting the timer to zero first. -/
def Maze.update (r : Rng) (m : Maze) (i : ℕ) (dt : ℚ) : Maze × ℕ :=
  let walls := m.dynamicWalls.map (fun w => w.update dt)
  let t := m.shiftTimer + dt
  if m.shiftInterval ≤ t then
    Maze.triggerShift r i { m with dynamicWalls := walls, shiftTimer := 0 }
  else ({ m with dynamicWalls := walls, shiftTimer := t }, i)

/-- Whether one update call with elapsed time dt fires the shift event. -/
def Maze.shiftFires (m : Maze) (dt : ℚ) : Bool :=
  decide (m.shiftInterval ≤ m.shiftTimer + dt)

/-- Drive Maze::update over a list of frame times, counting how many
calls fired the reconfiguration event. -/
def Maze.run (r : Rng) (m : Maze) (i : ℕ) : List ℚ → Maze × ℕ × ℕ
  | [] => (m, i, 0)
  | dt :: rest =>
    let c0 : ℕ := if m.shiftFires dt then 1 else 0
    let mi := Maze.update r m i dt
    let res := Maze.run r mi.1 mi.2 rest
    (res.1, res.2.1, c0 + res.2.2)

/-! ## Reachability over the generated grid -/

/-- A cell an agent may move through: Empty, Start or Exit. -/
def passable (g : Grid) (p : ℤ × ℤ) : Prop :=
  g p.1 p.2 = CELL_EMPTY ∨ g p.1 p.2 = CELL_START ∨ g p.1 p.2 = CELL_EXIT

/-- One breadth-first-search move: to a 4-neighbor that is passable. -/
def mazeStep (g : Grid) (p q : ℤ × ℤ) : Prop :=
  (p.1 - q.1).natAbs + (p.2 - q.2).natAbs = 1 ∧ passable g q

/-- A breadth-first search over Empty/Start/Exit cells started at the
Start cell visits the Exit cell: the start is passable and the exit is
connected to it through passable 4-neighbor moves. -/
def reachesExit (g : Grid) : Prop :=
  passable g (startX, startZ) ∧
    Relation.ReflTransGen (mazeStep g) (startX, startZ) (exitX, exitZ)

/-- Every in-bounds cell holds one of the four codes present before
dynamic walls are added. -/
def GridWF (g : Grid) : Prop :=
  ∀ a b : ℤ, 0 ≤ a → a < mazeSize → 0 ≤ b → b < mazeSize →
    g a b = CELL_WALL ∨ g a b = CELL_EMPTY ∨ g a b = CELL_START ∨ g a b = CELL_EXIT

/-- The second grid differs from the first only by cells written to
Empty. -/
def OnlyEmptyWrites (g g' : Grid) : Prop :=
  ∀ a b : ℤ, g' a b = g a b ∨ g' a b = CELL_EMPTY

/-- The second grid differs from the first only at cells that were Wall. -/
def OnlyWallWrites (g g' : Grid) : Prop :=
  ∀ a b : ℤ, g' a b = g a b ∨ g a b = CELL_WALL

/-! ## Sample inputs used by witnesses and counterexamples -/

/-- An initial cell array with every cell Empty. -/
def flatGrid : Grid := fun _ _ => CELL_EMPTY

/-- A freshly constructed maze over the flat grid. -/
def sampleMaze : Maze := Maze.init flatGrid

/-- A rand() stream driving triggerShift to the spawn branch:
x = 1 + 1 = 2, z = 1 + 2 = 3, and rand() % 2 = 0. -/
def spawnRng : Rng := fun n => if n = 0 then 1 else if n = 1 then 2 else 0

/-! ## The binomial loop computes the binomial coefficient -/

theorem binomial_loop_eq (n : ℕ) :
    ∀ k, k ≤ n →
      (List.range k).foldl (fun res (i : ℕ) => res * ((n : ℤ) - (i : ℤ)) / ((i : ℤ) + 1)) 1 =
        (Nat.choose n k : ℤ) := by
  intro k
  induction k with
  | zero => simp
  | succ k ih =>
    intro hk
    rw [List.range_succ, List.foldl_append, ih (Nat.le_of_succ_le hk)]
    simp only [List.foldl_cons, List.foldl_nil]
    have hcast : ((n - k : ℕ) : ℤ) = (n : ℤ) - k := by
      have : k ≤ n := Nat.le_of_succ_le hk
      omega
    have h1 : (Nat.choose n k : ℤ) * ((n : ℤ) - (k : ℕ)) =
        (Nat.choose n (k + 1) : ℤ) * ((k : ℤ) + 1) := by
      rw [← hcast]
      exact_mod_cast (Nat.choose_succ_right_eq n k).symm
    rw [h1, Int.mul_ediv_cancel]
    omega

theorem binomial_eq_choose (n k : ℕ) : binomial n k = (Nat.choose n k : ℤ) := by
  unfold binomial
  split
  · rw [Nat.choose_eq_zero_of_lt (by omega)]
    rfl
  · split
    · rcases (by assumption : k = 0 ∨ k = n) with h | h <;> subst h <;> simp
    · exact binomial_loop_eq n k (by omega)

theorem bernsteinPoly_eq_bern (n k : ℕ) (t : ℚ) : bernsteinPoly n k t = bern n k t := by
  unfold bernsteinPoly bern
  rw [binomial_eq_choose]
  push_cast
  ring

/-! ## The Bernstein accumulation loop as a finite sum -/

theorem foldl_add_range (f : ℕ → ℚ) (c : ℚ) :
    ∀ m, (List.range m).foldl (fun q i => q + f i) c = c + ∑ i ∈ Finset.range m, f i := by
  intro m
  induction m with
  | zero => simp
  | succ m ih =>
    rw [List.range_succ, List.foldl_append, ih]
    simp [Finset.sum_range_succ]
    ring

theorem foldl_addVec_proj (B : ℕ → ℚ) (P : ℕ → Vec4) :
    ∀ (L : List ℕ) (acc : Vec4),
      (L.foldl (fun a i =>
          (⟨a.x + B i * (P i).x, a.y + B i * (P i).y, a.z + B i * (P i).z⟩ : Vec4)) acc) =
      ⟨L.foldl (fun q i => q + B i * (P i).x) acc.x,
       L.foldl (fun q i => q + B i * (P i).y) acc.y,
       L.foldl (fun q i => q + B i * (P i).z) acc.z⟩ := by
  intro L
  induction L with
  | nil => intro acc; rfl
  | cons a L ih => intro acc; simp only [List.foldl_cons, ih]

theorem getD_map_proj (f : Vec4 → ℚ) (d : Vec4) (l : List Vec4) (i : ℕ) :
    (l.map f).getD i (f d) = f (l.getD i d) := by
  rcases h : l[i]? with _ | v
  · have hlen : l.length ≤ i := by
      simpa using List.getElem?_eq_none_iff.mp h
    rw [List.getD_eq_default, List.getD_eq_default]
    · exact hlen
    · simpa using hlen
  · have h1 : (l.map f)[i]? = some (f v) := by
      rw [List.getElem?_map, h]
      rfl
    rw [List.getD_eq_getElem?_getD, List.getD_eq_getElem?_getD, h, h1]
    rfl

theorem computeBernstein_eq (pts : List Vec4) (t : ℚ) :
    BezierCurve.computeBernstein pts t =
      ⟨bernSum (pts.map (fun p => p.x)) t,
       bernSum (pts.map (fun p => p.y)) t,
       bernSum (pts.map (fun p => p.z)) t⟩ := by
  unfold BezierCurve.computeBernstein bernSum
  rw [foldl_addVec_proj (fun i => bernsteinPoly (pts.length - 1) i t)
      (fun i => pts.getD i ⟨0, 0, 0⟩)]
  simp only [List.length_map]
  rw [foldl_add_range, foldl_add_range, foldl_add_range]
  have hx : ∀ i ∈ Finset.range pts.length,
      bernsteinPoly (pts.length - 1) i t * (pts.getD i ⟨0, 0, 0⟩).x =
        bern (pts.length - 1) i t * (pts.map (fun p => p.x)).getD i 0 := by
    intro i _
    rw [bernsteinPoly_eq_bern]
    have := getD_map_proj (fun p => p.x) ⟨0, 0, 0⟩ pts i
    simp only at this
    rw [this]
  have hy : ∀ i ∈ Finset.range pts.length,
      bernsteinPoly (pts.length - 1) i t * (pts.getD i ⟨0, 0, 0⟩).y =
        bern (pts.length - 1) i t * (pts.map (fun p => p.y)).getD i 0 := by
    intro i _
    rw [bernsteinPoly_eq_bern]
    have := getD_map_proj (fun p => p.y) ⟨0, 0, 0⟩ pts i
    simp only at this
    rw [this]
  have hz : ∀ i ∈ Finset.range pts.length,
      bernsteinPoly (pts.length - 1) i t * (pts.getD i ⟨0, 0, 0⟩).z =
        bern (pts.length - 1) i t * (pts.map (fun p => p.z)).getD i 0 := by
    intro i _
    rw [bernsteinPoly_eq_bern]
    have := getD_map_proj (fun p => p.z) ⟨0, 0, 0⟩ pts i
    simp only at this
    rw [this]
  rw [Finset.sum_congr rfl hx, Finset.sum_congr rfl hy, Finset.sum_congr rfl hz]
  simp

/-! ## De Casteljau reduction, componentwise -/

theorem decasStep_map (t : ℚ) (f : Vec4 → ℚ)
    (hf : ∀ p q, f (lerp t p q) = lerpQ t (f p) (f q)) :
    ∀ l : List Vec4, (decasStep t l).map f = decasStepQ t (l.map f) := by
  intro l
  induction l with
  | nil => rfl
  | cons p l ih =>
    cases l with
    | nil => rfl
    | cons q rest =>
      simp only [decasStep, decasStepQ, List.map_cons, hf]
      rw [← List.map_cons f q rest, ih]

theorem decasIter_map (t : ℚ) (f : Vec4 → ℚ)
    (hf : ∀ p q, f (lerp t p q) = lerpQ t (f p) (f q)) :
    ∀ (n : ℕ) (l : List Vec4), (decasIter t n l).map f = decasIterQ t n (l.map f) := by
  intro n
  induction n with
  | zero => intro l; rfl
  | succ n ih =>
    intro l
    simp only [decasIter, decasIterQ, ih, decasStep_map t f hf]

theorem headD_map (f : Vec4 → ℚ) (d : Vec4) (l : List Vec4) :
    (l.map f).headD (f d) = f (l.headD d) := by
  cases l <;> rfl

theorem compute_decas_eq (pts : List Vec4) (t : ℚ) :
    DeCasteljau.compute pts t =
      ⟨deCasQ t (pts.map (fun p => p.x)),
       deCasQ t (pts.map (fun p => p.y)),
       deCasQ t (pts.map (fun p => p.z))⟩ := by
  unfold DeCasteljau.compute deCasQ
  simp only [List.length_map]
  have hx := decasIter_map t (fun p => p.x) (fun _ _ => rfl) (pts.length - 1) pts
  have hy := decasIter_map t (fun p => p.y) (fun _ _ => rfl) (pts.length - 1) pts
  have hz := decasIter_map t (fun p => p.z) (fun _ _ => rfl) (pts.length - 1) pts
  have ex := headD_map (fun p => p.x) ⟨0, 0, 0⟩ (decasIter t (pts.length - 1) pts)
  have ey := headD_map (fun p => p.y) ⟨0, 0, 0⟩ (decasIter t (pts.length - 1) pts)
  have ez := headD_map (fun p => p.z) ⟨0, 0, 0⟩ (decasIter t (pts.length - 1) pts)
  simp only at ex ey ez
  rw [hx] at ex
  rw [hy] at ey
  rw [hz] at ez
  rw [ex, ey, ez]

theorem decasStepQ_length (t : ℚ) :
    ∀ l : List ℚ, (decasStepQ t l).length = l.length - 1 := by
  intro l
  induction l with
  | nil => rfl
  | cons a l ih =>
    cases l with
    | nil => rfl
    | cons b rest =>
      simp only [decasStepQ, List.length_cons] at ih ⊢
      omega

theorem decasStepQ_getD (t : ℚ) :
    ∀ (l : List ℚ) (i : ℕ), i + 1 < l.length →
      (decasStepQ t l).getD i 0 = lerpQ t (l.getD i 0) (l.getD (i + 1) 0) := by
  intro l
  induction l with
  | nil => intro i h; simp at h
  | cons a l ih =>
    intro i h
    cases l with
    | nil => simp at h
    | cons b rest =>
      cases i with
      | zero => rfl
      | succ i =>
        simp only [decasStepQ, List.getD_cons_succ]
        exact ih i (by simpa using h)

/-! ## The Bernstein basis recurrence -/

theorem bern_succ_zero (n : ℕ) (t : ℚ) : bern (n + 1) 0 t = (1 - t) * bern n 0 t := by
  simp only [bern, Nat.choose_zero_right, Nat.cast_one, one_mul, Nat.sub_zero, pow_zero, mul_one]
  rw [pow_succ]
  ring

theorem bern_succ (n i : ℕ) (t : ℚ) :
    bern (n + 1) (i + 1) t = (1 - t) * bern n (i + 1) t + t * bern n i t := by
  rcases Nat.lt_or_ge i n with h | h
  · obtain ⟨d, hd⟩ : ∃ d, n - i = d + 1 := ⟨n - i - 1, by omega⟩
    have e1 : n + 1 - (i + 1) = d + 1 := by omega
    have e2 : n - (i + 1) = d := by omega
    unfold bern
    rw [Nat.choose_succ_succ, e1, e2, hd]
    push_cast
    ring
  · rcases Nat.eq_or_lt_of_le h with h | h
    · subst h
      simp only [bern, Nat.choose_self, Nat.choose_succ_self, Nat.cast_one, Nat.cast_zero,
        Nat.sub_self, pow_zero, Nat.succ_sub_succ]
      ring
    · have c1 : Nat.choose (n + 1) (i + 1) = 0 := Nat.choose_eq_zero_of_lt (by omega)
      have c2 : Nat.choose n (i + 1) = 0 := Nat.choose_eq_zero_of_lt (by omega)
      have c3 : Nat.choose n i = 0 := Nat.choose_eq_zero_of_lt (by omega)
      simp [bern, c1, c2, c3]

theorem bernSum_step (t : ℚ) (l : List ℚ) (h : 2 ≤ l.length) :
    bernSum (decasStepQ t l) t = bernSum l t := by
  obtain ⟨n, hn⟩ : ∃ n, l.length = n + 2 := ⟨l.length - 2, by omega⟩
  have hs : (decasStepQ t l).length = n + 1 := by rw [decasStepQ_length]; omega
  unfold bernSum
  rw [hs, hn]
  simp only [Nat.succ_sub_one]
  have hL : ∀ i ∈ Finset.range (n + 1),
      bern n i t * (decasStepQ t l).getD i 0 =
        (1 - t) * (bern n i t * l.getD i 0) + t * (bern n i t * l.getD (i + 1) 0) := by
    intro i hi
    rw [decasStepQ_getD t l i (by simp only [Finset.mem_range] at hi; omega)]
    unfold lerpQ
    ring
  rw [Finset.sum_congr rfl hL, Finset.sum_add_distrib, ← Finset.mul_sum, ← Finset.mul_sum]
  have hR : ∀ i ∈ Finset.range (n + 1),
      bern (n + 1) (i + 1) t * l.getD (i + 1) 0 =
        (1 - t) * (bern n (i + 1) t * l.getD (i + 1) 0) +
          t * (bern n i t * l.getD (i + 1) 0) := by
    intro i _
    rw [bern_succ]
    ring
  have hRHS : ∑ i ∈ Finset.range (n + 2), bern (n + 1) i t * l.getD i 0 =
      (1 - t) * (∑ i ∈ Finset.range (n + 1), bern n (i + 1) t * l.getD (i + 1) 0) +
        t * (∑ i ∈ Finset.range (n + 1), bern n i t * l.getD (i + 1) 0) +
        (1 - t) * (bern n 0 t * l.getD 0 0) := by
    rw [Finset.sum_range_succ' (fun i => bern (n + 1) i t * l.getD i 0) (n + 1)]
    rw [Finset.sum_congr rfl hR, Finset.sum_add_distrib,
      ← Finset.mul_sum, ← Finset.mul_sum, bern_succ_zero]
    ring
  rw [hRHS]
  have hzero : bern n (n + 1) t = 0 := by
    simp [bern, Nat.choose_succ_self]
  have key : ∑ i ∈ Finset.range (n + 1), bern n i t * l.getD i 0 =
      (∑ i ∈ Finset.range (n + 1), bern n (i + 1) t * l.getD (i + 1) 0) +
        bern n 0 t * l.getD 0 0 := by
    have h1 := Finset.sum_range_succ' (fun i => bern n i t * l.getD i 0) (n + 1)
    have h2 := Finset.sum_range_succ (fun i => bern n i t * l.getD i 0) (n + 1)
    rw [h1] at h2
    rw [hzero] at h2
    simp only [zero_mul, add_zero] at h2
    linarith [h2]
  linear_combination (1 - t) * key

theorem deCasQ_eq_bernSum :
    ∀ (n : ℕ) (l : List ℚ), l.length = n + 1 → ∀ t, deCasQ t l = bernSum l t := by
  intro n
  induction n with
  | zero =>
    intro l hl t
    cases l with
    | nil => simp at hl
    | cons a l' =>
      cases l' with
      | nil => simp [deCasQ, decasIterQ, bernSum, bern]
      | cons b l'' => simp at hl
  | succ n ih =>
    intro l hl t
    have hstep : (decasStepQ t l).length = n + 1 := by rw [decasStepQ_length]; omega
    have h1 : deCasQ t l = deCasQ t (decasStepQ t l) := by
      unfold deCasQ
      rw [hl, hstep]
      simp only [Nat.succ_sub_one]
      rfl
    rw [h1, ih _ hstep t, bernSum_step t l (by omega)]

/-- C2: for every control polygon with at least 2 control points and
every parameter t, the Bernstein-summation evaluator and the De
Casteljau linear-interpolation reduction produce exactly the same point
(over the exact rational embedding of the float arithmetic, so in
particular they agree within 1e-4 at t in {0, 1/4, 1/2, 3/4, 1} for
polygons of order at most 5). -/
theorem c2_bernstein_decasteljau_agree (pts : List Vec4) (t : ℚ) (h : 2 ≤ pts.length) :
    BezierCurve.computeBernstein pts t = DeCasteljau.compute pts t := by
  rw [computeBernstein_eq, compute_decas_eq]
  have hx := deCasQ_eq_bernSum (pts.length - 1) (pts.map fun p => p.x)
    (by simp only [List.length_map]; omega) t
  have hy := deCasQ_eq_bernSum (pts.length - 1) (pts.map fun p => p.y)
    (by simp only [List.length_map]; omega) t
  have hz := deCasQ_eq_bernSum (pts.length - 1) (pts.map fun p => p.z)
    (by simp only [List.length_map]; omega) t
  rw [hx, hy, hz]

/-- C2 witness: the two evaluators agree on a concrete quadratic-free
two-point polygon at t = 1/4. -/
theorem c2_bernstein_decasteljau_agree_witness :
    2 ≤ ([⟨0, 0, 0⟩, ⟨1, 2, 3⟩] : List Vec4).length ∧
      BezierCurve.computeBernstein [⟨0, 0, 0⟩, ⟨1, 2, 3⟩] (1 / 4) =
        DeCasteljau.compute [⟨0, 0, 0⟩, ⟨1, 2, 3⟩] (1 / 4) :=
  ⟨by simp, c2_bernstein_decasteljau_agree _ _ (by simp)⟩

/-- C6 counterexample: evaluating a one-point control polygon does not
fail and is silently defaulted to a point value: Bernstein evaluation of
the single-point polygon [(1,2,3)] at t = 1/2 returns (1,2,3), and on
the empty polygon it returns the zero vector; no InvalidCurve error
exists anywhere in the code. -/
theorem c6_counterexample :
    BezierCurve.computeBernstein [⟨1, 2, 3⟩] (1 / 2) = ⟨1, 2, 3⟩ ∧
      BezierCurve.computeBernstein [] (1 / 2) = ⟨0, 0, 0⟩ := by
  constructor
  · have h1 : ∀ t : ℚ, bernsteinPoly 0 0 t = 1 := by
      intro t
      simp [bernsteinPoly, binomial]
    have hr : List.range 1 = [0] := rfl
    simp only [BezierCurve.computeBernstein, List.length_cons, List.length_nil,
      hr, List.foldl_cons, List.foldl_nil, Nat.sub_self, h1]
    simp [List.getD_cons_zero]
  · rfl

/-- C6 amended: evaluation with fewer than 2 control points does not
signal any error: Bernstein evaluation returns the zero point for an
empty polygon and the unique control point for a one-point polygon (De
Casteljau likewise; its empty case reads past the vector in C++ and is
out of contract), for every point and parameter. -/
theorem c6_degenerate_silent_default (p : Vec4) (t : ℚ) :
    BezierCurve.computeBernstein [p] t = p ∧
      BezierCurve.computeBernstein [] t = ⟨0, 0, 0⟩ ∧
      DeCasteljau.compute [p] t = p := by
  refine ⟨?_, rfl, rfl⟩
  have h1 : bernsteinPoly 0 0 t = 1 := by
    simp [bernsteinPoly, binomial]
  have hr : List.range 1 = [0] := rfl
  simp only [BezierCurve.computeBernstein, List.length_cons, List.length_nil,
    hr, List.foldl_cons, List.foldl_nil, Nat.sub_self, h1]
  simp [List.getD_cons_zero]

/-! ## C3 : the ping-pong parameter stays in the unit interval -/

theorem updateSlide_slideT_bounds (w : DynamicWall) (dt : ℚ) :
    0 ≤ (w.updateSlide dt).slideT ∧ (w.updateSlide dt).slideT ≤ 1 := by
  unfold DynamicWall.updateSlide
  dsimp only
  split
  · norm_num
  · split
    · norm_num
    · rename_i h1 h2
      constructor <;> dsimp only <;> linarith

theorem foldSlide_bounds (dts : List ℚ) :
    ∀ w : DynamicWall, 0 ≤ w.slideT → w.slideT ≤ 1 →
      0 ≤ (dts.foldl DynamicWall.updateSlide w).slideT ∧
        (dts.foldl DynamicWall.updateSlide w).slideT ≤ 1 := by
  induction dts with
  | nil => intro w h0 h1; exact ⟨h0, h1⟩
  | cons d rest ih =>
    intro w h0 h1
    simp only [List.foldl_cons]
    exact ih _ (updateSlide_slideT_bounds w d).1 (updateSlide_slideT_bounds w d).2

theorem updatePatrol_pathT_bounds (e : Enemy) (dt : ℚ) :
    0 ≤ (e.updatePatrol dt).pathT ∧ (e.updatePatrol dt).pathT ≤ 1 := by
  unfold Enemy.updatePatrol
  dsimp only
  split
  · norm_num
  · split
    · norm_num
    · rename_i h1 h2
      constructor <;> dsimp only <;> linarith

theorem foldPatrol_bounds (dts : List ℚ) :
    ∀ e : Enemy, 0 ≤ e.pathT → e.pathT ≤ 1 →
      0 ≤ (dts.foldl Enemy.updatePatrol e).pathT ∧
        (dts.foldl Enemy.updatePatrol e).pathT ≤ 1 := by
  induction dts with
  | nil => intro e h0 h1; exact ⟨h0, h1⟩
  | cons d rest ih =>
    intro e h0 h1
    simp only [List.foldl_cons]
    exact ih _ (updatePatrol_pathT_bounds e d).1 (updatePatrol_pathT_bounds e d).2

/-- C3: for every Slide obstacle and every Patrol/CircularPatrol agent
whose curve parameter starts in [0,1], after any finite sequence of
update calls with arbitrary positive dt values the curve parameter
remains in [0,1] (each update clamps at 1 flipping direction to -1 and
clamps at 0 flipping direction to +1). -/
theorem c3_curve_parameter_invariant (w : DynamicWall) (e : Enemy) (dts : List ℚ)
    (hw0 : 0 ≤ w.slideT) (hw1 : w.slideT ≤ 1)
    (he0 : 0 ≤ e.pathT) (he1 : e.pathT ≤ 1)
    (hpos : ∀ d ∈ dts, 0 < d) :
    (0 ≤ (dts.foldl DynamicWall.updateSlide w).slideT ∧
      (dts.foldl DynamicWall.updateSlide w).slideT ≤ 1) ∧
    (0 ≤ (dts.foldl Enemy.updatePatrol e).pathT ∧
      (dts.foldl Enemy.updatePatrol e).pathT ≤ 1) :=
  ⟨foldSlide_bounds dts w hw0 hw1, foldPatrol_bounds dts e he0 he1⟩

/-- C3 witness: the constructor wall and enemy, driven by the two
positive frame times 1/3 and 7, keep their parameters in [0,1]. -/
theorem c3_curve_parameter_invariant_witness :
    0 ≤ DynamicWall.init.slideT ∧ DynamicWall.init.slideT ≤ 1 ∧
    0 ≤ Enemy.init.pathT ∧ Enemy.init.pathT ≤ 1 ∧
    (∀ d ∈ [(1 : ℚ) / 3, 7], 0 < d) ∧
    ((0 ≤ ([(1 : ℚ) / 3, 7].foldl DynamicWall.updateSlide DynamicWall.init).slideT ∧
      ([(1 : ℚ) / 3, 7].foldl DynamicWall.updateSlide DynamicWall.init).slideT ≤ 1) ∧
     (0 ≤ ([(1 : ℚ) / 3, 7].foldl Enemy.updatePatrol Enemy.init).pathT ∧
      ([(1 : ℚ) / 3, 7].foldl Enemy.updatePatrol Enemy.init).pathT ≤ 1)) := by
  refine ⟨by norm_num [DynamicWall.init], by norm_num [DynamicWall.init],
    by norm_num [Enemy.init], by norm_num [Enemy.init], ?_, ?_⟩
  · intro d hd
    simp only [List.mem_cons, List.not_mem_nil, or_false] at hd
    rcases hd with h | h <;> norm_num [h]
  · refine c3_curve_parameter_invariant DynamicWall.init Enemy.init [(1 : ℚ) / 3, 7]
      (by norm_num [DynamicWall.init]) (by norm_num [DynamicWall.init])
      (by norm_num [Enemy.init]) (by norm_num [Enemy.init]) ?_
    intro d hd
    simp only [List.mem_cons, List.not_mem_nil, or_false] at hd
    rcases hd with h | h <;> norm_num [h]

/-! ## C4 : Pulse visibility coupling -/

set_option maxRecDepth 4000 in
/-- C4 counterexample: triggerShift on the maze over the all-Empty grid,
driven by spawnRng, spawns a fresh Pulse obstacle whose reachable state
has scale = 0 while isVisible is still the constructor default true: a
zero-scale yet visible state, contradicting the claim for freshly
spawned obstacles. -/
theorem c4_counterexample :
    ((Maze.triggerShift spawnRng 0 sampleMaze).1.dynamicWalls.getD 0 DynamicWall.init).scale
        = 0 ∧
    ((Maze.triggerShift spawnRng 0 sampleMaze).1.dynamicWalls.getD 0 DynamicWall.init).isVisible
        = true ∧
    ((Maze.triggerShift spawnRng 0 sampleMaze).1.dynamicWalls.getD 0 DynamicWall.init).type
        = CELL_DYNAMIC_SCALE := by
  refine ⟨by decide, by decide, by decide⟩

/-- C4 amended: immediately after any updateScale step the two flags are
exactly the thresholds applied to the new scale: isVisible iff 0.01 <
scale and isActive (solid) iff 0.5 < scale.  Hence every post-update
Pulse state with scale ≤ 0 is invisible, every one with scale > 0.5 is
solid, and no post-update state is visible with zero scale; only a
freshly spawned shift obstacle that has not yet been updated can be
zero-scale yet flagged visible. -/
theorem c4_pulse_flags_after_update (w : DynamicWall) (dt : ℚ) :
    ((w.updateScale dt).isVisible = decide ((1 / 100 : ℚ) < (w.updateScale dt).scale)) ∧
    ((w.updateScale dt).isActive = decide ((1 / 2 : ℚ) < (w.updateScale dt).scale)) :=
  ⟨rfl, rfl⟩

/-! ## C5 : chase engagement distance -/

/-- C5 counterexample: a Chase agent at the constructor position
(0, 1/2, 0) with detectionRadius 10 and the player at (5, 201/2, 0):
the planar (vertical-ignoring) distance is 5 < 10, yet one update call
leaves the engaged flag false, because the source engages on the full
3D distance sqrt(25 + 10000) > 10.  The sqrt oracle is the identity
function; the flag does not depend on it. -/
theorem c5_counterexample :
    planarDistSq ({ Enemy.init with detectionRange := 10 } : Enemy).position ⟨5, 201 / 2, 0⟩ <
      ({ Enemy.init with detectionRange := 10 } : Enemy).detectionRange ^ 2 ∧
    (Enemy.updateChase (fun q => q) { Enemy.init with detectionRange := 10 }
        ⟨5, 201 / 2, 0⟩ (1 / 60)).isChasing = false := by
  constructor
  · norm_num [planarDistSq, Enemy.init]
  · norm_num [Enemy.updateChase, Enemy.init, distSq3]

/-- C5 amended: engagement is decided by the full 3D distance (vertical
offset included), not the planar distance: for any positive detection
radius, one updateChase call sets the engaged flag exactly when the
squared 3D distance to the player is below the squared radius, for any
player position, dt and sqrt oracle.  Since the 3D distance dominates
the planar distance, a player at planar distance at least the radius
still never engages, so the distance-50 half of the original claim
stands while the distance-5 half requires the vertical offset small. -/
theorem c5_chase_engagement_3d (s : ℚ → ℚ) (e : Enemy) (p : Vec4) (dt : ℚ)
    (hr : 0 < e.detectionRange) :
    ((Enemy.updateChase s e p dt).isChasing = true ↔
      distSq3 e.position p < e.detectionRange ^ 2) := by
  unfold Enemy.updateChase
  by_cases hd : distSq3 e.position p < e.detectionRange ^ 2
  · have hc : 0 < e.detectionRange ∧ distSq3 e.position p < e.detectionRange ^ 2 := ⟨hr, hd⟩
    rw [if_pos hc]
    simp only [hd, iff_true]
    split
    · split <;> rfl
    · rename_i h
      simp at h
  · have hc : ¬(0 < e.detectionRange ∧ distSq3 e.position p < e.detectionRange ^ 2) :=
      fun hcc => hd hcc.2
    rw [if_neg hc]
    simp only [hd, iff_false]
    split
    · rename_i h
      simp at h
    · split <;> simp

/-- C5 witness: detection radius 10 with the player at 3D distance 5
(offsets 3 and 4 in the plane, equal heights) engages after one update. -/
theorem c5_chase_engagement_3d_witness :
    0 < ({ Enemy.init with detectionRange := 10 } : Enemy).detectionRange ∧
    ((Enemy.updateChase (fun q => q) { Enemy.init with detectionRange := 10 }
        ⟨3, 1 / 2, 4⟩ (1 / 60)).isChasing = true ↔
      distSq3 ({ Enemy.init with detectionRange := 10 } : Enemy).position ⟨3, 1 / 2, 4⟩ <
        ({ Enemy.init with detectionRange := 10 } : Enemy).detectionRange ^ 2) :=
  ⟨by norm_num [Enemy.init],
   c5_chase_engagement_3d (fun q => q) _ _ _ (by norm_num [Enemy.init])⟩

/-! ## C9 : grid/world coordinate round-trip -/

/-- C9: for every maze with positive cell size and every integer grid
coordinate within the 10x10 bounds, converting to the world-space cell
center with gridToWorld and back with worldToGrid returns exactly the
same coordinates. -/
theorem c9_world_grid_roundtrip (m : Maze) (x z : ℤ)
    (hc : 0 < m.cellSize) (hx0 : 0 ≤ x) (hx : x < mazeSize) (hz0 : 0 ≤ z) (hz : z < mazeSize) :
    m.worldToGrid (m.gridToWorld x z) = (x, z) := by
  unfold Maze.worldToGrid Maze.gridToWorld
  dsimp only
  have hne : m.cellSize ≠ 0 := ne_of_gt hc
  have hxq : (m.offsetX + (x : ℚ) * m.cellSize + m.cellSize / 2 - m.offsetX) / m.cellSize
      = (x : ℚ) + 1 / 2 := by
    field_simp
    ring
  have hzq : (m.offsetZ + (z : ℚ) * m.cellSize + m.cellSize / 2 - m.offsetZ) / m.cellSize
      = (z : ℚ) + 1 / 2 := by
    field_simp
    ring
  rw [hxq, hzq]
  have h05 : ∀ a : ℤ, 0 ≤ a → truncToInt ((a : ℚ) + 1 / 2) = a := by
    intro a ha
    have haq : (0 : ℚ) ≤ (a : ℚ) := by exact_mod_cast ha
    unfold truncToInt
    rw [if_pos (by linarith)]
    rw [add_comm, Int.floor_add_int]
    norm_num
  rw [h05 x hx0, h05 z hz0]

/-- C9 witness: the constructor maze (cell size 2) and the coordinate
(3, 4) round-trip exactly. -/
theorem c9_world_grid_roundtrip_witness :
    0 < sampleMaze.cellSize ∧ (0 : ℤ) ≤ 3 ∧ (3 : ℤ) < mazeSize ∧
      (0 : ℤ) ≤ 4 ∧ (4 : ℤ) < mazeSize ∧
      sampleMaze.worldToGrid (sampleMaze.gridToWorld 3 4) = (3, 4) :=
  ⟨by norm_num [sampleMaze, Maze.init], by norm_num, by norm_num [mazeSize],
   by norm_num, by norm_num [mazeSize],
   c9_world_grid_roundtrip sampleMaze 3 4 (by norm_num [sampleMaze, Maze.init])
     (by norm_num) (by norm_num [mazeSize]) (by norm_num) (by norm_num [mazeSize])⟩

/-! ## C10 : collision scan touches only in-bounds cells -/

theorem any_congruence {α : Type} (l : List α) (f g : α → Bool)
    (h : ∀ a ∈ l, f a = g a) : l.any f = l.any g := by
  induction l with
  | nil => rfl
  | cons a l ih =>
    simp only [List.any_cons, h a (by simp)]
    rw [ih (fun b hb => h b (by simp [hb]))]

/-- C10: for every world position and radius, the collision query reads
only in-bounds grid cells: its result is unchanged under arbitrary
modification of every out-of-bounds cell (so out-of-bounds cells never
contribute a collision), even though getCell reports Wall for every
out-of-bounds coordinate. -/
theorem c10_collision_ignores_out_of_bounds (m : Maze) (g' : Grid) (pos : Vec4) (radius : ℚ)
    (hagree : ∀ x z : ℤ, 0 ≤ x → x < mazeSize → 0 ≤ z → z < mazeSize → m.grid x z = g' x z) :
    Maze.checkCollision { m with grid := g' } pos radius = m.checkCollision pos radius ∧
      (∀ x z : ℤ, ¬(0 ≤ x ∧ x < mazeSize ∧ 0 ≤ z ∧ z < mazeSize) →
        m.getCell x z = CELL_WALL) := by
  constructor
  · unfold Maze.checkCollision
    dsimp only
    have hw : Maze.worldToGrid { m with grid := g' } pos = m.worldToGrid pos := rfl
    have hgw : ∀ x z : ℤ, Maze.gridToWorld { m with grid := g' } x z = m.gridToWorld x z :=
      fun _ _ => rfl
    have hcs : ({ m with grid := g' } : Maze).cellSize = m.cellSize := rfl
    have hdw : ({ m with grid := g' } : Maze).dynamicWalls = m.dynamicWalls := rfl
    simp only [hw, hgw, hcs, hdw]
    apply any_congruence
    intro dx _
    apply any_congruence
    intro dz _
    dsimp only
    by_cases hb : 0 ≤ (m.worldToGrid pos).1 + dx ∧ (m.worldToGrid pos).1 + dx < mazeSize ∧
        0 ≤ (m.worldToGrid pos).2 + dz ∧ (m.worldToGrid pos).2 + dz < mazeSize
    · rw [if_pos hb, if_pos hb,
        ← hagree ((m.worldToGrid pos).1 + dx) ((m.worldToGrid pos).2 + dz)
          hb.1 hb.2.1 hb.2.2.1 hb.2.2.2]
    · rw [if_neg hb, if_neg hb]
  · intro x z hob
    unfold Maze.getCell
    rw [if_neg hob]

/-- C10 witness: over the all-Empty maze and an out-of-bounds-rewritten
copy of its grid, the collision query at the origin with radius 3/10
agrees, and getCell reports Wall at the out-of-bounds coordinate
(-1, 5). -/
theorem c10_collision_ignores_out_of_bounds_witness :
    (∀ x z : ℤ, 0 ≤ x → x < mazeSize → 0 ≤ z → z < mazeSize →
      sampleMaze.grid x z =
        (fun a b : ℤ =>
          if 0 ≤ a ∧ a < mazeSize ∧ 0 ≤ b ∧ b < mazeSize then CELL_EMPTY else CELL_WALL) x z) ∧
    Maze.checkCollision
        { sampleMaze with grid := fun a b : ℤ =>
            if 0 ≤ a ∧ a < mazeSize ∧ 0 ≤ b ∧ b < mazeSize then CELL_EMPTY else CELL_WALL }
        ⟨0, 0, 0⟩ (3 / 10) =
      sampleMaze.checkCollision ⟨0, 0, 0⟩ (3 / 10) ∧
    ¬((0 : ℤ) ≤ -1 ∧ (-1 : ℤ) < mazeSize ∧ (0 : ℤ) ≤ 5 ∧ (5 : ℤ) < mazeSize) ∧
    sampleMaze.getCell (-1) 5 = CELL_WALL := by
  have hagree : ∀ x z : ℤ, 0 ≤ x → x < mazeSize → 0 ≤ z → z < mazeSize →
      sampleMaze.grid x z =
        (fun a b : ℤ =>
          if 0 ≤ a ∧ a < mazeSize ∧ 0 ≤ b ∧ b < mazeSize then CELL_EMPTY else CELL_WALL) x z := by
    intro x z h1 h2 h3 h4
    simp only [sampleMaze, Maze.init, flatGrid]
    rw [if_pos ⟨h1, h2, h3, h4⟩]
  have hmain := c10_collision_ignores_out_of_bounds sampleMaze
    (fun a b : ℤ =>
      if 0 ≤ a ∧ a < mazeSize ∧ 0 ≤ b ∧ b < mazeSize then CELL_EMPTY else CELL_WALL)
    ⟨0, 0, 0⟩ (3 / 10) hagree
  refine ⟨hagree, hmain.1, by norm_num [mazeSize], hmain.2 (-1) 5 (by norm_num [mazeSize])⟩

/-! ## C8 : shift cadence -/

theorem triggerShift_shiftTimer (r : Rng) (i : ℕ) (m : Maze) :
    (Maze.triggerShift r i m).1.shiftTimer = m.shiftTimer := by
  unfold Maze.triggerShift
  dsimp only
  split
  · split <;> rfl
  · rfl

theorem triggerShift_shiftInterval (r : Rng) (i : ℕ) (m : Maze) :
    (Maze.triggerShift r i m).1.shiftInterval = m.shiftInterval := by
  unfold Maze.triggerShift
  dsimp only
  split
  · split <;> rfl
  · rfl

theorem sum_pos_list_nil (l : List ℚ) (hpos : ∀ x ∈ l, 0 < x) (h0 : l.sum ≤ 0) : l = [] := by
  cases l with
  | nil => rfl
  | cons a t =>
    exfalso
    have ha : 0 < a := hpos a (by simp)
    have ht : 0 ≤ t.sum := List.sum_nonneg (fun x hx => le_of_lt (hpos x (by simp [hx])))
    simp only [List.sum_cons] at h0
    linarith

theorem run_count (r : Rng) :
    ∀ (dts : List ℚ) (m : Maze) (i : ℕ),
      (∀ d ∈ dts, 0 < d) → 0 ≤ m.shiftTimer → m.shiftTimer < m.shiftInterval →
      m.shiftTimer + dts.sum ≤ m.shiftInterval →
      (Maze.run r m i dts).2.2 =
        if m.shiftTimer + dts.sum = m.shiftInterval ∧ dts ≠ [] then 1 else 0 := by
  intro dts
  induction dts with
  | nil =>
    intro m i _ _ hlt _
    simp [Maze.run]
  | cons d rest ih =>
    intro m i hpos h0 hlt hsum
    have hd : 0 < d := hpos d (by simp)
    have hrestpos : ∀ x ∈ rest, 0 < x := fun x hx => hpos x (by simp [hx])
    have hrestsum : 0 ≤ rest.sum :=
      List.sum_nonneg (fun x hx => le_of_lt (hrestpos x hx))
    simp only [List.sum_cons] at hsum
    by_cases hfire : m.shiftInterval ≤ m.shiftTimer + d
    · have heq : m.shiftTimer + d = m.shiftInterval := by linarith
      have hrest0 : rest.sum ≤ 0 := by linarith
      have hrestnil : rest = [] := sum_pos_list_nil rest hrestpos hrest0
      subst hrestnil
      simp only [Maze.run, Maze.shiftFires, Maze.update]
      rw [if_pos (show decide (m.shiftInterval ≤ m.shiftTimer + d) = true from
        by simpa using hfire)]
      rw [if_pos (show m.shiftTimer + [d].sum = m.shiftInterval ∧ ([d] : List ℚ) ≠ [] from
        ⟨by simpa using heq, by simp⟩)]
    · have hlt2 : m.shiftTimer + d < m.shiftInterval := lt_of_not_le hfire
      simp only [Maze.run, Maze.shiftFires, Maze.update]
      rw [if_neg hfire, if_neg (by simpa using hfire)]
      dsimp only
      rw [ih ({ m with dynamicWalls := m.dynamicWalls.map (fun w => w.update d), shiftTimer := m.shiftTimer + d }) i hrestpos (by dsimp only; linarith)
          (by dsimp only; exact hlt2) (by dsimp only; linarith)]
      dsimp only
      rcases eq_or_ne rest [] with hnil | hnil
      · subst hnil
        rw [zero_add]
        rw [if_neg (fun hc => hc.2 rfl)]
        rw [if_neg (fun hc => absurd hc.1
          (by simp only [List.sum_cons, List.sum_nil, add_zero]; exact ne_of_lt hlt2))]
      · have hassoc : m.shiftTimer + d + rest.sum = m.shiftTimer + (d + rest.sum) := by ring
        rw [zero_add, hassoc]
        simp only [List.sum_cons]
        by_cases hA : m.shiftTimer + (d + rest.sum) = m.shiftInterval
        · rw [if_pos ⟨hA, hnil⟩, if_pos ⟨hA, by simp⟩]
        · rw [if_neg (fun hc => hA hc.1), if_neg (fun hc => hA hc.1)]

/-- C8: starting from a maze whose shift timer is zero and whose shift
interval is positive, running Maze::update over a finite sequence of
positive frame times whose sum does not exceed the interval fires
exactly one reconfiguration event when the times accumulate to exactly
shiftInterval, and zero events when they accumulate to strictly less. -/
theorem c8_shift_cadence (r : Rng) (m : Maze) (i : ℕ) (dts : List ℚ)
    (ht : m.shiftTimer = 0) (hint : 0 < m.shiftInterval)
    (hpos : ∀ d ∈ dts, 0 < d) (hsum : dts.sum ≤ m.shiftInterval) :
    (Maze.run r m i dts).2.2 = if dts.sum = m.shiftInterval then 1 else 0 := by
  rw [run_count r dts m i hpos (le_of_eq ht.symm) (by rw [ht]; exact hint)
    (by rw [ht, zero_add]; exact hsum)]
  rw [ht, zero_add]
  by_cases he : dts.sum = m.shiftInterval
  · have hne : dts ≠ [] := by
      intro hnil
      subst hnil
      simp only [List.sum_nil] at he
      exact absurd he.symm (ne_of_gt hint)
    rw [if_pos ⟨he, hne⟩, if_pos he]
  · rw [if_neg (fun hc => he hc.1), if_neg he]

/-- C8 witness: from the freshly constructed maze (interval 30), the
frame times 10, 10, 10 summing to exactly 30 fire exactly one shift. -/
theorem c8_shift_cadence_witness :
    sampleMaze.shiftTimer = 0 ∧ 0 < sampleMaze.shiftInterval ∧
    (∀ d ∈ [(10 : ℚ), 10, 10], 0 < d) ∧
    [(10 : ℚ), 10, 10].sum ≤ sampleMaze.shiftInterval ∧
    (Maze.run (fun _ => 0) sampleMaze 0 [(10 : ℚ), 10, 10]).2.2 =
      if [(10 : ℚ), 10, 10].sum = sampleMaze.shiftInterval then 1 else 0 := by
  have hpos : ∀ d ∈ [(10 : ℚ), 10, 10], 0 < d := by
    intro d hd
    simp only [List.mem_cons, List.not_mem_nil, or_false] at hd
    rcases hd with h | h | h <;> norm_num [h]
  refine ⟨rfl, by norm_num [sampleMaze, Maze.init], hpos,
    by norm_num [sampleMaze, Maze.init], ?_⟩
  exact c8_shift_cadence (fun _ => 0) sampleMaze 0 [(10 : ℚ), 10, 10] rfl
    (by norm_num [sampleMaze, Maze.init]) hpos (by norm_num [sampleMaze, Maze.init])

/-! ## C7 : generation determinism and the missing seed parameter -/

set_option maxRecDepth 10000 in
/-- C7 counterexample: generate() accepts no seed argument; it reseeds
the process generator from time(NULL), so the rand() stream depends on
the wall clock, not on any caller-provided seed.  Two runs whose
streams differ (the constant streams 0 and 1, standing for two launch
times) produce different grids, so same size plus same caller inputs do
not give byte-identical grids across repeated runs. -/
theorem c7_counterexample :
    (Maze.generate (fun _ => 0) sampleMaze).1.gridList ≠
      (Maze.generate (fun _ => 1) sampleMaze).1.gridList := by
  decide

/-- C7 amended: the generated grid is a function of the rand() stream
alone: two runs whose rand() streams coincide pointwise (as produced by
equal srand seeds) yield byte-identical grids.  The interface accepts
no explicit seed; reproducibility holds only at the level of the
modelled stream. -/
theorem c7_determinism_given_stream (r1 r2 : Rng) (m : Maze) (h : ∀ n, r1 n = r2 n) :
    (Maze.generate r1 m).1.gridList = (Maze.generate r2 m).1.gridList := by
  have he : r1 = r2 := funext h
  rw [he]

/-- C7 witness: two runs over the pointwise-equal constant streams give
the same grid bytes. -/
theorem c7_determinism_given_stream_witness :
    (∀ n : ℕ, (fun _ : ℕ => 5) n = (fun _ : ℕ => 5) n) ∧
      (Maze.generate (fun _ => 5) sampleMaze).1.gridList =
        (Maze.generate (fun _ => 5) sampleMaze).1.gridList :=
  ⟨fun _ => rfl, c7_determinism_given_stream _ _ sampleMaze (fun _ => rfl)⟩

/-! ## C1 : connectivity of every generated maze -/

theorem oew_refl (g : Grid) : OnlyEmptyWrites g g := fun _ _ => Or.inl rfl

theorem oew_trans {g1 g2 g3 : Grid} (h12 : OnlyEmptyWrites g1 g2)
    (h23 : OnlyEmptyWrites g2 g3) : OnlyEmptyWrites g1 g3 := by
  intro a b
  rcases h23 a b with h | h
  · rw [h]
    exact h12 a b
  · exact Or.inr h

theorem oew_setCell (g : Grid) (x z : ℤ) :
    OnlyEmptyWrites g (setCell g x z CELL_EMPTY) := by
  intro a b
  unfold setCell
  split
  · exact Or.inr rfl
  · exact Or.inl rfl

theorem oew_carve (g : Grid) (x z : ℤ) : OnlyEmptyWrites g (carveIfWall g x z) := by
  unfold carveIfWall
  split
  · exact oew_setCell g x z
  · exact oew_refl g

theorem oww_refl (g : Grid) : OnlyWallWrites g g := fun _ _ => Or.inl rfl

theorem oww_trans {g1 g2 g3 : Grid} (h12 : OnlyWallWrites g1 g2)
    (h23 : OnlyWallWrites g2 g3) : OnlyWallWrites g1 g3 := by
  intro a b
  rcases h23 a b with h | h
  · rw [h]
    exact h12 a b
  · rcases h12 a b with h2 | h2
    · rw [h2] at h
      exact Or.inr h
    · exact Or.inr h2

theorem oww_setCell_wall {g : Grid} {x z : ℤ} (hw : g x z = CELL_WALL) (v : ℕ) :
    OnlyWallWrites g (setCell g x z v) := by
  intro a b
  unfold setCell
  split
  · rename_i hab
    right
    rw [hab.1, hab.2]
    exact hw
  · exact Or.inl rfl

theorem oew_passable {g g' : Grid} (h : OnlyEmptyWrites g g') (p : ℤ × ℤ)
    (hp : passable g p) : passable g' p := by
  rcases h p.1 p.2 with he | he
  · unfold passable at hp ⊢
    rw [he]
    exact hp
  · unfold passable
    rw [he]
    exact Or.inl rfl

theorem oww_passable {g g' : Grid} (h : OnlyWallWrites g g') (p : ℤ × ℤ)
    (hp : passable g p) : passable g' p := by
  rcases h p.1 p.2 with he | he
  · unfold passable at hp ⊢
    rw [he]
    exact hp
  · exfalso
    unfold passable at hp
    rcases hp with h0 | h0 | h0 <;>
      (rw [he] at h0; simp [CELL_WALL, CELL_EMPTY, CELL_START, CELL_EXIT] at h0)

theorem oew_WF {g g' : Grid} (h : OnlyEmptyWrites g g') (hw : GridWF g) : GridWF g' := by
  intro a b h1 h2 h3 h4
  rcases h a b with he | he
  · rw [he]
    exact hw a b h1 h2 h3 h4
  · rw [he]
    right
    left
    rfl

theorem setCell_WF {g : Grid} (hwf : GridWF g) (x z : ℤ) (v : ℕ)
    (hv : v = CELL_WALL ∨ v = CELL_EMPTY ∨ v = CELL_START ∨ v = CELL_EXIT) :
    GridWF (setCell g x z v) := by
  intro a b h1 h2 h3 h4
  unfold setCell
  split
  · exact hv
  · exact hwf a b h1 h2 h3 h4

theorem mazeStep_mono {g g' : Grid} (h : ∀ p, passable g p → passable g' p) :
    ∀ p q, mazeStep g p q → mazeStep g' p q :=
  fun _ q hs => ⟨hs.1, h q hs.2⟩

theorem carve_passable (g : Grid) (a b : ℤ) (hwf : GridWF g)
    (h1 : 0 ≤ a) (h2 : a < mazeSize) (h3 : 0 ≤ b) (h4 : b < mazeSize) :
    passable (carveIfWall g a b) (a, b) := by
  unfold carveIfWall
  split
  · unfold passable setCell
    dsimp only
    rw [if_pos ⟨rfl, rfl⟩]
    exact Or.inl rfl
  · rename_i hnw
    rcases hwf a b h1 h2 h3 h4 with h | h | h | h
    · exact absurd h hnw
    · exact Or.inl h
    · exact Or.inr (Or.inl h)
    · exact Or.inr (Or.inr h)

theorem tryDir_oew (rec : Grid → ℕ → ℤ → ℤ → Grid × ℕ)
    (hrec : ∀ g i x z, OnlyEmptyWrites g (rec g i x z).1)
    (st : Grid × ℕ) (x z : ℤ) (d : ℤ × ℤ) :
    OnlyEmptyWrites st.1 (tryDir rec st x z d).1 := by
  unfold tryDir
  dsimp only
  split
  · exact oew_trans (oew_setCell _ _ _) (hrec _ _ _ _)
  · exact oew_refl _

theorem generatePaths_oew (r : Rng) :
    ∀ (fuel : ℕ) (g : Grid) (i : ℕ) (x z : ℤ),
      OnlyEmptyWrites g (generatePaths r fuel g i x z).1 := by
  intro fuel
  induction fuel with
  | zero => intro g i x z; exact oew_refl g
  | succ fuel ih =>
    intro g i x z
    simp only [generatePaths]
    exact oew_trans
      (oew_trans
        (oew_trans
          (oew_trans (oew_setCell g x z) (tryDir_oew _ ih _ x z _))
          (tryDir_oew _ ih _ x z _))
        (tryDir_oew _ ih _ x z _))
      (tryDir_oew _ ih _ x z _)

theorem placeWallLoop_oww (r : Rng) :
    ∀ (att : ℕ) (m : Maze) (i : ℕ),
      OnlyWallWrites m.grid ((placeWallLoop r att m i).1).grid := by
  intro att
  induction att with
  | zero => intro m i; exact oww_refl _
  | succ att ih =>
    intro m i
    simp only [placeWallLoop]
    split
    · rename_i hwall
      split
      · exact oww_setCell_wall hwall _
      · split
        · exact oww_setCell_wall hwall _
        · exact oww_setCell_wall hwall _
    · exact ih m _

theorem foldPlace_oww (r : Rng) (l : List ℕ) :
    ∀ st : Maze × ℕ,
      OnlyWallWrites st.1.grid
        ((l.foldl (fun st _ => placeWallLoop r 50 st.1 st.2) st).1).grid := by
  induction l with
  | nil => intro st; exact oww_refl _
  | cons a l ih =>
    intro st
    simp only [List.foldl_cons]
    exact oww_trans (placeWallLoop_oww r 50 st.1 st.2) (ih _)

theorem addDynamicWalls_oww (r : Rng) (i : ℕ) (m : Maze) :
    OnlyWallWrites m.grid (((addDynamicWalls r i m).1).grid) := by
  unfold addDynamicWalls
  exact foldPlace_oww r (List.range 5) ({ m with dynamicWalls := [] }, i)

theorem ensureLoop_reaches :
    ∀ (fuel : ℕ) (g : Grid) (x z : ℤ),
      (exitX - x).natAbs + (exitZ - z).natAbs ≤ fuel →
      0 ≤ x → x ≤ exitX → 0 ≤ z → z ≤ exitZ → GridWF g →
      OnlyEmptyWrites g (ensureLoop fuel g x z) ∧
        GridWF (ensureLoop fuel g x z) ∧
        Relation.ReflTransGen (mazeStep (ensureLoop fuel g x z)) (x, z) (exitX, exitZ) := by
  intro fuel
  induction fuel with
  | zero =>
    intro g x z hm hx0 hx8 hz0 hz8 hwf
    have hx : x = exitX := by simp only [exitX, exitZ] at hm ⊢; omega
    have hz : z = exitZ := by simp only [exitX, exitZ] at hm ⊢; omega
    subst hx
    subst hz
    exact ⟨oew_refl g, hwf, Relation.ReflTransGen.refl⟩
  | succ fuel ih =>
    intro g x z hm hx0 hx8 hz0 hz8 hwf
    by_cases hxz : x = exitX ∧ z = exitZ
    · simp only [ensureLoop]
      rw [if_pos hxz]
      obtain ⟨hx, hz⟩ := hxz
      subst hx
      subst hz
      exact ⟨oew_refl g, hwf, Relation.ReflTransGen.refl⟩
    · simp only [ensureLoop]
      rw [if_neg hxz]
      rcases lt_or_eq_of_le hx8 with hxlt | hxeq
      · rcases lt_or_eq_of_le hz8 with hzlt | hzeq
        · -- both coordinates still short of the exit: two carves per iteration
          have hx8' : x < 8 := by simpa only [exitX] using hxlt
          have hz8' : z < 8 := by simpa only [exitZ] using hzlt
          simp only [hxlt, hzlt, if_true, true_or]
          set g1 := carveIfWall g (x + 1) z with hg1
          set g2 := carveIfWall g1 (x + 1) (z + 1) with hg2
          have hwf1 : GridWF g1 := oew_WF (oew_carve g (x + 1) z) hwf
          have hwf2 : GridWF g2 := oew_WF (oew_carve g1 (x + 1) (z + 1)) hwf1
          have hm' : (exitX - (x + 1)).natAbs + (exitZ - (z + 1)).natAbs ≤ fuel := by
            simp only [exitX, exitZ] at hm ⊢
            omega
          obtain ⟨ho, hw, hr⟩ := ih g2 (x + 1) (z + 1) hm' (by omega)
            (by simp only [exitX]; omega) (by omega) (by simp only [exitZ]; omega) hwf2
          refine ⟨oew_trans (oew_carve g (x + 1) z)
            (oew_trans (oew_carve g1 (x + 1) (z + 1)) ho), hw, ?_⟩
          have hp1 : passable (ensureLoop fuel g2 (x + 1) (z + 1)) (x + 1, z) :=
            oew_passable ho _ (oew_passable (oew_carve g1 (x + 1) (z + 1)) _
              (carve_passable g (x + 1) z hwf (by omega)
                (by simp only [mazeSize]; omega) hz0 (by simp only [mazeSize]; omega)))
          have hp2 : passable (ensureLoop fuel g2 (x + 1) (z + 1)) (x + 1, z + 1) :=
            oew_passable ho _ (carve_passable g1 (x + 1) (z + 1) hwf1 (by omega)
              (by simp only [mazeSize]; omega) (by omega) (by simp only [mazeSize]; omega))
          refine Relation.ReflTransGen.head ⟨?_, hp1⟩
            (Relation.ReflTransGen.head ⟨?_, hp2⟩ hr)
          · dsimp only
            omega
          · dsimp only
            omega
        · -- x still short, z already at the exit row: one carve
          have hx8' : x < 8 := by simpa only [exitX] using hxlt
          subst hzeq
          simp only [hxlt, if_true, true_or, lt_irrefl, or_self, if_false]
          set g1 := carveIfWall g (x + 1) exitZ with hg1
          have hwf1 : GridWF g1 := oew_WF (oew_carve g (x + 1) exitZ) hwf
          have hm' : (exitX - (x + 1)).natAbs + (exitZ - exitZ).natAbs ≤ fuel := by
            simp only [exitX, exitZ] at hm ⊢
            omega
          obtain ⟨ho, hw, hr⟩ := ih g1 (x + 1) exitZ hm' (by omega)
            (by simp only [exitX]; omega) (by simp only [exitZ]; omega) le_rfl hwf1
          refine ⟨oew_trans (oew_carve g (x + 1) exitZ) ho, hw, ?_⟩
          have hp1 : passable (ensureLoop fuel g1 (x + 1) exitZ) (x + 1, exitZ) :=
            oew_passable ho _ (carve_passable g (x + 1) exitZ hwf (by omega)
              (by simp only [mazeSize]; omega) (by simp only [exitZ]; omega)
              (by simp only [mazeSize, exitZ]; omega))
          refine Relation.ReflTransGen.head ⟨?_, hp1⟩ hr
          dsimp only
          omega
      · rcases lt_or_eq_of_le hz8 with hzlt | hzeq
        · -- x already at the exit column, z still short: one carve
          have hz8' : z < 8 := by simpa only [exitZ] using hzlt
          subst hxeq
          simp only [hzlt, if_true, true_or, lt_irrefl, or_self, if_false]
          set g1 := carveIfWall g exitX (z + 1) with hg1
          have hwf1 : GridWF g1 := oew_WF (oew_carve g exitX (z + 1)) hwf
          have hm' : (exitX - exitX).natAbs + (exitZ - (z + 1)).natAbs ≤ fuel := by
            simp only [exitX, exitZ] at hm ⊢
            omega
          obtain ⟨ho, hw, hr⟩ := ih g1 exitX (z + 1) hm' (by simp only [exitX]; omega)
            le_rfl (by omega) (by simp only [exitZ]; omega) hwf1
          refine ⟨oew_trans (oew_carve g exitX (z + 1)) ho, hw, ?_⟩
          have hp1 : passable (ensureLoop fuel g1 exitX (z + 1)) (exitX, z + 1) :=
            oew_passable ho _ (carve_passable g exitX (z + 1) hwf
              (by simp only [exitX]; omega) (by simp only [mazeSize, exitX]; omega)
              (by omega) (by simp only [mazeSize]; omega))
          refine Relation.ReflTransGen.head ⟨?_, hp1⟩ hr
          dsimp only
          omega
        · exact absurd ⟨hxeq, hzeq⟩ hxz

theorem ensurePathToExit_reaches (g : Grid) (hwf : GridWF g) :
    OnlyEmptyWrites g (ensurePathToExit g startX startZ) ∧
      GridWF (ensurePathToExit g startX startZ) ∧
      Relation.ReflTransGen (mazeStep (ensurePathToExit g startX startZ))
        (startX, startZ) (exitX, exitZ) := by
  unfold ensurePathToExit
  exact ensureLoop_reaches _ g startX startZ le_rfl (by norm_num [startX])
    (by norm_num [startX, exitX]) (by norm_num [startZ]) (by norm_num [startZ, exitZ]) hwf

attribute [irreducible] addDynamicWalls generatePaths ensureLoop placeWallLoop

theorem reaches_after_addDynamicWalls (r : Rng) (i : ℕ) (mm : Maze)
    (hp : passable mm.grid (startX, startZ))
    (hr : Relation.ReflTransGen (mazeStep mm.grid) (startX, startZ) (exitX, exitZ)) :
    reachesExit ((addDynamicWalls r i mm).1.grid) := by
  have howw := addDynamicWalls_oww r i mm
  exact ⟨oww_passable howw _ hp,
    Relation.ReflTransGen.mono (mazeStep_mono (fun p hp2 => oww_passable howw p hp2)) hr⟩

set_option maxHeartbeats 1600000 in
/-- C1: for every rand() stream (any time seed) and any initial grid
contents, the grid produced by Maze::generate is solvable: the Start
cell is passable and a breadth-first search moving only through Empty,
Start and Exit cells reaches the Exit cell from it — the staircase
Manhattan carve of ensurePathToExit guarantees the connection and the
later dynamic-wall placement overwrites only Wall cells. -/
theorem c1_generated_maze_reaches_exit (r : Rng) (m : Maze) :
    reachesExit ((Maze.generate r m).1.grid) := by
  simp only [Maze.generate]
  have hwf0 : GridWF (initWalls m.grid) := by
    intro a b h1 h2 h3 h4
    unfold initWalls
    rw [if_pos ⟨h1, h2, h3, h4⟩]
    exact Or.inl rfl
  have hwf1 : GridWF (generatePaths r 64 (initWalls m.grid) 0 1 1).1 :=
    oew_WF (generatePaths_oew r 64 (initWalls m.grid) 0 1 1) hwf0
  have hwf2 : GridWF (setCell (generatePaths r 64 (initWalls m.grid) 0 1 1).1
      startX startZ CELL_START) :=
    setCell_WF hwf1 _ _ _ (Or.inr (Or.inr (Or.inl rfl)))
  have hwf3 : GridWF (setCell (setCell (generatePaths r 64 (initWalls m.grid) 0 1 1).1
      startX startZ CELL_START) exitX exitZ CELL_EXIT) :=
    setCell_WF hwf2 _ _ _ (Or.inr (Or.inr (Or.inr rfl)))
  have hstart3 : passable (setCell (setCell (generatePaths r 64 (initWalls m.grid) 0 1 1).1
      startX startZ CELL_START) exitX exitZ CELL_EXIT) (startX, startZ) := by
    unfold passable setCell
    dsimp only
    rw [if_neg (by norm_num [startX, startZ, exitX, exitZ])]
    rw [if_pos ⟨rfl, rfl⟩]
    exact Or.inr (Or.inl rfl)
  obtain ⟨ho4, hwf4, hr4⟩ := ensurePathToExit_reaches _ hwf3
  have hpass4 := oew_passable ho4 _ hstart3
  exact reaches_after_addDynamicWalls r (generatePaths r 64 (initWalls m.grid) 0 1 1).2
    ({ m with grid := ensurePathToExit (setCell (setCell
      (generatePaths r 64 (initWalls m.grid) 0 1 1).1 startX startZ CELL_START)
      exitX exitZ CELL_EXIT) startX startZ }) hpass4 hr4
